import Mathlib

/-!
Verification of the lynkdlst core (`simple-nostr-ts.ts`): key material
encoding, the Nostr record codec (sign/verify), and the relay session pool.
Each definition is a shallow embedding of the corresponding TypeScript
function; machine integers are modelled as `Nat` (all intermediate values in
the embedded code stay far below 2^31, so JavaScript 32-bit bitwise
semantics coincide with plain `Nat` bitwise operations), fallible code
returns `Except String`, and JavaScript `undefined`-able fields are
`Option`.
-/
set_option maxRecDepth 1000000

deriving instance DecidableEq for Except

namespace Lynkdlst

/-! ### Hex encoding (model of bytesToHex / hexToBytes from noble/hashes utils,
imported and used by simple-nostr-ts.ts) -/
/-- Model of asciiToBase16: maps an ASCII code to its hex digit value. -/
def asciiToBase16 (c : Nat) : Option Nat :=
  if 48 ≤ c ∧ c ≤ 57 then some (c - 48)
  else if 65 ≤ c ∧ c ≤ 70 then some (c - 55)
  else if 97 ≤ c ∧ c ≤ 102 then some (c - 87)
  else none

/-- Hex digit character for a value below 16 (lowercase, as produced by
bytesToHex's precomputed table). -/
def hexChar (n : Nat) : Char :=
  if n < 10 then Char.ofNat (48 + n) else Char.ofNat (87 + n)

/-- The two lowercase hex characters of one byte. -/
def byteToHexChars (b : Nat) : List Char :=
  [hexChar (b / 16), hexChar (b % 16)]

/-- Model of bytesToHex: lowercase hex encoding of a byte list. -/
def bytesToHex (bs : List Nat) : String :=
  String.mk (bs.flatMap byteToHexChars)

/-- Pairwise decoding loop of hexToBytes. -/
def hexToBytesGo : List Char → Except String (List Nat)
  | [] => .ok []
  | [_] => .error "hex string expected, got unpadded hex"
  | c1 :: c2 :: rest =>
    match asciiToBase16 c1.toNat, asciiToBase16 c2.toNat with
    | some n1, some n2 => (hexToBytesGo rest).map (fun bs => (n1 * 16 + n2) :: bs)
    | _, _ => .error "hex string expected, got non-hex character"

/-- Model of hexToBytes: decodes a hex string, throwing on odd length or a
non-hex character. -/
def hexToBytes (s : String) : Except String (List Nat) :=
  if s.length % 2 ≠ 0 then .error "hex string expected, got unpadded hex"
  else hexToBytesGo s.data

/-! ### SHA-256 (model of sha256 from noble/hashes, used by the record codec
for event identifiers and message signing). Words are `Nat` reduced mod 2^32. -/
/-- Right-rotation of a 32-bit word. -/
def rotr32 (x n : Nat) : Nat := ((x >>> n) ||| (x <<< (32 - n))) &&& 4294967295

/-- SHA-256 round constants. -/
def shaK : List Nat :=
  [1116352408, 1899447441, 3049323471, 3921009573, 961987163, 1508970993,
   2453635748, 2870763221, 3624381080, 310598401, 607225278, 1426881987,
   1925078388, 2162078206, 2614888103, 3248222580, 3835390401, 4022224774,
   264347078, 604807628, 770255983, 1249150122, 1555081692, 1996064986,
   2554220882, 2821834349, 2952996808, 3210313671, 3336571891, 3584528711,
   113926993, 338241895, 666307205, 773529912, 1294757372, 1396182291,
   1695183700, 1986661051, 2177026350, 2456956037, 2730485921, 2820302411,
   3259730800, 3345764771, 3516065817, 3600352804, 4094571909, 275423344,
   430227734, 506948616, 659060556, 883997877, 958139571, 1322822218,
   1537002063, 1747873779, 1955562222, 2024104815, 2227730452, 2361852424,
   2428436474, 2756734187, 3204031479, 3329325298]

/-- The eight-word SHA-256 chaining state. -/
structure Sha256State where
  a : Nat
  b : Nat
  c : Nat
  d : Nat
  e : Nat
  f : Nat
  g : Nat
  h : Nat

/-- Initial SHA-256 chaining state. -/
def shaInit : Sha256State :=
  ⟨1779033703, 3144134277, 1013904242, 2773480762, 1359893119, 2600822924, 528734635, 1541459225⟩

/-- Big-endian 32-bit words of a byte list (four bytes per word). -/
def bytesToWordsBE : List Nat → List Nat
  | b0 :: b1 :: b2 :: b3 :: rest =>
    ((b0 <<< 24) ||| (b1 <<< 16) ||| (b2 <<< 8) ||| b3) :: bytesToWordsBE rest
  | _ => []

/-- Message-schedule extension: extends the 16 block words to 64. -/
def shaSchedule (w16 : List Nat) : List Nat :=
  (List.range 48).foldl (fun w _ =>
    let n := w.length
    let x15 := w.getD (n - 15) 0
    let x2 := w.getD (n - 2) 0
    let s0 := (rotr32 x15 7) ^^^ (rotr32 x15 18) ^^^ (x15 >>> 3)
    let s1 := (rotr32 x2 17) ^^^ (rotr32 x2 19) ^^^ (x2 >>> 10)
    w ++ [(w.getD (n - 16) 0 + s0 + w.getD (n - 7) 0 + s1) % 4294967296]) w16

/-- One SHA-256 compression round. -/
def shaRound (st : Sha256State) (ki wi : Nat) : Sha256State :=
  let s1 := (rotr32 st.e 6) ^^^ (rotr32 st.e 11) ^^^ (rotr32 st.e 25)
  let ch := (st.e &&& st.f) ^^^ ((st.e ^^^ 4294967295) &&& st.g)
  let t1 := (st.h + s1 + ch + ki + wi) % 4294967296
  let s0 := (rotr32 st.a 2) ^^^ (rotr32 st.a 13) ^^^ (rotr32 st.a 22)
  let mj := (st.a &&& st.b) ^^^ (st.a &&& st.c) ^^^ (st.b &&& st.c)
  let t2 := (s0 + mj) % 4294967296
  ⟨(t1 + t2) % 4294967296, st.a, st.b, st.c, (st.d + t1) % 4294967296, st.e, st.f, st.g⟩

/-- Compress one 64-byte block into the chaining state. -/
def shaCompress (st : Sha256State) (block : List Nat) : Sha256State :=
  let w := shaSchedule (bytesToWordsBE block)
  let r := ((shaK.zip w).foldl (fun s kw => shaRound s kw.1 kw.2) st)
  ⟨(st.a + r.a) % 4294967296, (st.b + r.b) % 4294967296, (st.c + r.c) % 4294967296,
   (st.d + r.d) % 4294967296, (st.e + r.e) % 4294967296, (st.f + r.f) % 4294967296,
   (st.g + r.g) % 4294967296, (st.h + r.h) % 4294967296⟩

/-- Big-endian 8-byte encoding of the bit length. -/
def be64 (n : Nat) : List Nat :=
  [(n >>> 56) &&& 255, (n >>> 48) &&& 255, (n >>> 40) &&& 255, (n >>> 32) &&& 255,
   (n >>> 24) &&& 255, (n >>> 16) &&& 255, (n >>> 8) &&& 255, n &&& 255]

/-- SHA-256 padding: 0x80, zeros to 56 mod 64, then the 64-bit bit length. -/
def shaPad (msg : List Nat) : List Nat :=
  msg ++ [128] ++ List.replicate ((119 - msg.length % 64) % 64) 0 ++ be64 (8 * msg.length)

/-- Fuel-driven 64-byte chunking (structural recursion so it reduces in the
kernel; fuel is the list length). -/
def chunks64Go : Nat → List Nat → List (List Nat)
  | 0, _ => []
  | fuel + 1, l => if l.isEmpty then [] else l.take 64 :: chunks64Go fuel (l.drop 64)

/-- Split a byte list into 64-byte blocks. -/
def chunks64 (l : List Nat) : List (List Nat) := chunks64Go l.length l

/-- The four big-endian bytes of a 32-bit word. -/
def wordBE4 (w : Nat) : List Nat :=
  [(w >>> 24) &&& 255, (w >>> 16) &&& 255, (w >>> 8) &&& 255, w &&& 255]

/-- Model of sha256: hash a byte list to its 32-byte digest. -/
def sha256 (msg : List Nat) : List Nat :=
  let st := (chunks64 (shaPad msg)).foldl shaCompress shaInit
  wordBE4 st.a ++ wordBE4 st.b ++ wordBE4 st.c ++ wordBE4 st.d ++
  wordBE4 st.e ++ wordBE4 st.f ++ wordBE4 st.g ++ wordBE4 st.h

/-! ### UTF-8 and the JSON fragment used by the record codec.
`JSON.stringify([0, pubkey, created_at, kind, tags, content])` together with
`new TextEncoder().encode(...)` is modelled byte-for-byte (string escaping per
ECMA-262 QuoteJSONString; integers print in decimal as JavaScript does for the
integral timestamps/kinds the source uses). -/
/-- UTF-8 bytes of one character. -/
def utf8EncodeChar (c : Char) : List Nat :=
  let n := c.toNat
  if n < 128 then [n]
  else if n < 2048 then [192 ||| (n >>> 6), 128 ||| (n &&& 63)]
  else if n < 65536 then
    [224 ||| (n >>> 12), 128 ||| ((n >>> 6) &&& 63), 128 ||| (n &&& 63)]
  else
    [240 ||| (n >>> 18), 128 ||| ((n >>> 12) &&& 63), 128 ||| ((n >>> 6) &&& 63),
     128 ||| (n &&& 63)]

/-- Model of TextEncoder().encode: UTF-8 bytes of a string. -/
def utf8Bytes (s : String) : List Nat := s.data.flatMap utf8EncodeChar

/-- JSON string escaping of one character (ECMA-262 QuoteJSONString). -/
def jsonEscapeChar (c : Char) : List Char :=
  if c = '"' then ['\\', '"']
  else if c = '\\' then ['\\', '\\']
  else if c.toNat = 8 then ['\\', 'b']
  else if c.toNat = 9 then ['\\', 't']
  else if c.toNat = 10 then ['\\', 'n']
  else if c.toNat = 12 then ['\\', 'f']
  else if c.toNat = 13 then ['\\', 'r']
  else if c.toNat < 32 then ['\\', 'u', '0', '0', hexChar (c.toNat / 16), hexChar (c.toNat % 16)]
  else [c]

/-- JSON serialization of a string, with quotes. -/
def jsonStr (s : String) : String :=
  String.mk ('"' :: (s.data.flatMap jsonEscapeChar ++ ['"']))

/-- JSON serialization of an array of strings (one tag). -/
def jsonStrArray (l : List String) : String :=
  "[" ++ String.intercalate "," (l.map jsonStr) ++ "]"

/-- JSON serialization of the tags array. -/
def jsonTagsArray (tags : List (List String)) : String :=
  "[" ++ String.intercalate "," (tags.map jsonStrArray) ++ "]"

/-! ### The Nostr event record and the record codec
(model of `NostrEvent`, `Nostr.signEvent`, `Nostr.verifyEvent` from
simple-nostr-ts.ts). Optional `id`/`sig` model the TypeScript optional
fields; JavaScript falsiness of an absent or empty string is modelled
explicitly. -/
/-- Model of the NostrEvent interface (NIP-01 event). -/
structure NostrEvent where
  id : Option String
  pubkey : String
  created_at : Int
  kind : Int
  tags : List (List String)
  content : String
  sig : Option String
deriving DecidableEq

/-- Model of the canonical serialization
`JSON.stringify([0, event.pubkey, event.created_at, event.kind, event.tags,
event.content])` computed inside signEvent and verifyEvent. -/
def serializeEvent (e : NostrEvent) : String :=
  "[0," ++ jsonStr e.pubkey ++ "," ++ toString e.created_at ++ "," ++
    toString e.kind ++ "," ++ jsonTagsArray e.tags ++ "," ++ jsonStr e.content ++ "]"

/-- Interface of the external BIP-340 library (`schnorr` from noble/curves):
`sign hash key auxRand`, `verify sig hash pubkey` (noble's verify catches
internal errors and returns false, so it is total), and x-only public key
derivation. The repository calls these as black boxes; theorems quantify
over this structure, adding as hypotheses exactly the properties of the
real scheme they need. -/
structure Schnorr where
  sign : List Nat → List Nat → List Nat → List Nat
  verify : List Nat → List Nat → List Nat → Bool
  getPublicKey : List Nat → List Nat

/-- A small concrete instantiation of the `Schnorr` interface used to
evaluate theorems on explicit inputs. Like the real scheme it satisfies
sign/verify correctness and accepts a signature only for the matching
public key. -/
def toySchnorr : Schnorr where
  sign h k _ := h ++ k.map (fun b => (b + 1) % 256)
  verify s h p := s == h ++ p
  getPublicKey k := k.map (fun b => (b + 1) % 256)

/-- Model of Nostr.signEvent: serialize, hash, schnorr-sign with fresh
auxiliary randomness (passed here as the explicit argument `aux`), and
return a copy of the event with `id` and `sig` populated. The private key
may be given as hex (decoded, possibly throwing) or raw bytes. -/
def signEvent (S : Schnorr) (e : NostrEvent) (hexOrBytes : String ⊕ List Nat)
    (aux : List Nat) : Except String NostrEvent := do
  let privateKeyBytes ← match hexOrBytes with
    | .inl h => hexToBytes h
    | .inr bs => pure bs
  let hash := sha256 (utf8Bytes (serializeEvent e))
  let sig := bytesToHex (S.sign hash privateKeyBytes aux)
  let id := bytesToHex hash
  pure { e with id := some id, sig := some sig }

/-- Model of Nostr.verifyEvent: falsy id or sig gives false; a recomputed-id
mismatch gives false before any signature work; otherwise the stored
signature and the event's own pubkey are hex-decoded (each decode can throw)
and checked by schnorr verification. -/
def verifyEvent (S : Schnorr) (e : NostrEvent) : Except String Bool :=
  match e.id, e.sig with
  | some i, some s =>
    if i = "" ∨ s = "" then .ok false
    else
      let hash := sha256 (utf8Bytes (serializeEvent e))
      if bytesToHex hash ≠ i then .ok false
      else do
        let sigBytes ← hexToBytes s
        let pkBytes ← hexToBytes e.pubkey
        pure (S.verify sigBytes hash pkBytes)
  | _, _ => .ok false

/-- Model of the public key handle (`NostrPublicKey` fields). -/
structure PublicKeyT where
  hex : String
  npub : String
  bytes : List Nat
deriving DecidableEq

/-- Model of NostrPublicKey.verifyEvent: the method body is exactly
`return Nostr.verifyEvent(event)`; the receiver's key material is unused. -/
def publicKeyVerifyEvent (S : Schnorr) (_pk : PublicKeyT) (e : NostrEvent) :
    Except String Bool :=
  verifyEvent S e

/-! ### Concrete inputs used to evaluate the codec theorems. -/
/-- A 32-byte private key for the toy scheme. -/
def kOne : List Nat := List.replicate 32 1

/-- An unsigned event whose pubkey is the toy public key of `kOne`. -/
def ePub02 : NostrEvent :=
  ⟨none, bytesToHex (List.replicate 32 2), 1, 1, [], "", none⟩

/-- An unsigned event whose pubkey is NOT the toy public key of `kOne`. -/
def ePub03 : NostrEvent :=
  ⟨none, bytesToHex (List.replicate 32 3), 1, 1, [], "", none⟩

/-- An event carrying a stated id that cannot match its recomputed hash. -/
def eWrongId : NostrEvent :=
  ⟨some (String.mk (List.replicate 64 '0')), bytesToHex (List.replicate 32 2),
   1, 1, [], "", some "aa"⟩

/-- An event with no id. -/
def eNoId : NostrEvent := ⟨none, "", 0, 0, [], "", some "aa"⟩

/-- An event whose id equals the true SHA-256 of its canonical serialization
(cross-checked against an independent SHA-256 implementation) but whose
signature is not valid hex. -/
def eBadSigHex : NostrEvent :=
  ⟨some "e876994584de290acb68dee198a04dda2f655daf38d157f4262450ca422f49b2",
   bytesToHex (List.replicate 32 2), 1, 1, [], "", some "zz"⟩

/-! ### Radix-2 regrouping (model of convertRadix2 from scure/base, used by
bech32 toWords/fromWords and the checksum). In every call site the 32-bit
JavaScript values stay below 2^13 (byte/word regrouping) or 2^30 (checksum
splitting), so plain `Nat` bitwise arithmetic is exact. The inner
`for (; pos >= tgt; pos -= tgt)` loop is run on explicit fuel (its own `pos`)
so that it reduces in the kernel. -/
/-- Inner emission loop of convertRadix2: pop `tgt`-bit chunks off the top of
`carry` while at least `tgt` bits are buffered. -/
def crEmitGo (tgt mx carry : Nat) : Nat → Nat → List Nat × Nat
  | 0, pos => ([], pos)
  | fuel + 1, pos =>
    if 0 < tgt ∧ tgt ≤ pos then
      let d := (carry >>> (pos - tgt)) &&& mx
      let r := crEmitGo tgt mx carry fuel (pos - tgt)
      (d :: r.1, r.2)
    else ([], pos)

/-- Emission loop with fuel set to the buffered bit count. -/
def crEmit (tgt mx carry pos : Nat) : List Nat × Nat := crEmitGo tgt mx carry pos pos

/-- Main loop of convertRadix2 over the input digits, threading
(result, carry, pos). -/
def crLoop (frm tgt mx : Nat) : List Nat → Nat → Nat → Except String (List Nat × Nat × Nat)
  | [], carry, pos => .ok ([], carry, pos)
  | n :: rest, carry, pos =>
    if 2 ^ frm ≤ n then .error "convertRadix2: invalid data word"
    else if 32 < pos + frm then .error "convertRadix2: carry overflow"
    else
      let carry1 := (carry <<< frm) ||| n
      let ep := crEmit tgt mx carry1 (pos + frm)
      let carry2 := carry1 &&& (2 ^ ep.2 - 1)
      (crLoop frm tgt mx rest carry2 ep.2).map
        (fun r => (ep.1 ++ r.1, r.2.1, r.2.2))

/-- Model of convertRadix2: regroup base-2^frm digits into base-2^tgt digits,
with the trailing-carry padding rules of the source. -/
def convertRadix2 (data : List Nat) (frm tgt : Nat) (padding : Bool) :
    Except String (List Nat) := do
  let mx := 2 ^ tgt - 1
  let r ← crLoop frm tgt mx data 0 0
  let res := r.1
  let carry := r.2.1
  let pos := r.2.2
  let carryF := (carry <<< (tgt - pos)) &&& mx
  if padding = false ∧ frm ≤ pos then .error "Excess padding"
  else if padding = false ∧ 0 < carryF then .error "Non-zero padding"
  else if padding = true ∧ 0 < pos then .ok (res ++ [carryF])
  else .ok res

/-- Model of bech32.toWords (radix2(5) decode direction: 8-bit bytes to
5-bit words, right-padding allowed). -/
def toWords (bytes : List Nat) : Except String (List Nat) :=
  convertRadix2 bytes 8 5 true

/-- Model of bech32.fromWords (5-bit words to 8-bit bytes, padding must be
zero). -/
def fromWords (ws : List Nat) : Except String (List Nat) :=
  convertRadix2 ws 5 8 false

/-! ### Bech32 (model of the bech32 coder from scure/base: the alphabet, the
polymod checksum, encode and decode). JavaScript toLowerCase/toUpperCase are
modelled on ASCII, which covers every string this code touches. -/
/-- The bech32 data alphabet. -/
def bechAlphabet : List Char := "qpzry9x8gf2tvdw0s3jn54khce6mua7l".data

/-- Character of a 5-bit word. -/
def bechCharOf (w : Nat) : Char := bechAlphabet.getD w ' '

/-- First index of a character in a list. -/
def indexOfChar : List Char → Char → Option Nat
  | [], _ => none
  | x :: xs, c => if x = c then some 0 else (indexOfChar xs c).map (· + 1)

/-- Word of a bech32 data character (alphabet decode, throwing on an unknown
letter). -/
def bechWordOf (c : Char) : Except String Nat :=
  match indexOfChar bechAlphabet c with
  | some i => .ok i
  | none => .error "Unknown letter"

/-- Alphabet encoding of a word list (throws on a word outside the
alphabet). -/
def bechAlphEncode (ws : List Nat) : Except String (List Char) :=
  ws.mapM (fun w => if w < 32 then Except.ok (bechCharOf w) else Except.error "Invalid word")

/-- ASCII lowercase. -/
def lowerChar (c : Char) : Char :=
  if 65 ≤ c.toNat ∧ c.toNat ≤ 90 then Char.ofNat (c.toNat + 32) else c

/-- ASCII uppercase. -/
def upperChar (c : Char) : Char :=
  if 97 ≤ c.toNat ∧ c.toNat ≤ 122 then Char.ofNat (c.toNat - 32) else c

/-- Last index of a character in a list (model of String.lastIndexOf). -/
def lastIndexOfChar : List Char → Char → Option Nat
  | [], _ => none
  | x :: xs, c =>
    match lastIndexOfChar xs c with
    | some i => some (i + 1)
    | none => if x = c then some 0 else none

/-- The five bech32 checksum generators. -/
def bechGenerators : List Nat :=
  [0x3b6a57b2, 0x26508e6d, 0x1ea119fa, 0x3d4233dd, 0x2a1462b3]

/-- One polymod step. -/
def bech32Polymod (pre : Nat) : Nat :=
  let b := pre >>> 25
  let chk := (pre &&& 0x1ffffff) <<< 5
  (List.range 5).foldl
    (fun c i => if (b >>> i) &&& 1 = 1 then c ^^^ (bechGenerators.getD i 0) else c) chk

/-- The six checksum characters for a prefix and word list. -/
def bechChecksum (hrp : List Char) (words : List Nat) : Except String (List Char) :=
  if hrp.any (fun c => c.toNat < 33 ∨ 126 < c.toNat) then
    .error "Invalid prefix"
  else do
    let chk0 := hrp.foldl (fun chk c => bech32Polymod chk ^^^ (c.toNat >>> 5)) 1
    let chk1 := hrp.foldl (fun chk c => bech32Polymod chk ^^^ (c.toNat &&& 31))
      (bech32Polymod chk0)
    let chk2 := words.foldl (fun chk v => bech32Polymod chk ^^^ v) chk1
    let chk3 := (List.range 6).foldl (fun chk _ => bech32Polymod chk) chk2
    let sumWords ← convertRadix2 [(chk3 ^^^ 1) % 1073741824] 30 5 false
    pure (sumWords.map bechCharOf)

/-- Model of bech32.encode (length limit, lowercase prefix, checksum). -/
def bech32Encode (hrp : List Char) (words : List Nat) (limit : Nat) :
    Except String (List Char) :=
  if limit < hrp.length + 7 + words.length then .error "Exceeds length limit"
  else do
    let lowered := hrp.map lowerChar
    let sum ← bechChecksum lowered words
    let dataChars ← bechAlphEncode words
    pure (lowered ++ ['1'] ++ dataChars ++ sum)

/-- Model of bech32.decode: length window, single-case check, split at the
last separator, alphabet-decode, recompute and compare the checksum. -/
def bech32Decode (str : List Char) (limit : Nat) :
    Except String (List Char × List Nat) :=
  if str.length < 8 ∨ limit < str.length then .error "Wrong string length"
  else
    let lowered := str.map lowerChar
    if str ≠ lowered ∧ str ≠ str.map upperChar then
      .error "String must be lowercase or uppercase"
    else
      match lastIndexOfChar lowered '1' with
      | none => .error "Letter 1 must be present"
      | some 0 => .error "Letter 1 must be present between prefix and data"
      | some sepIndex =>
        let hrp := lowered.take sepIndex
        let payload := lowered.drop (sepIndex + 1)
        if payload.length < 6 then .error "Data must be at least 6 characters long"
        else do
          let allWords ← payload.mapM bechWordOf
          let words := allWords.take (allWords.length - 6)
          let sum ← bechChecksum hrp words
          if sum.isSuffixOf payload then pure (hrp, words)
          else .error "Invalid checksum"

/-! ### Key-material operations of simple-nostr-ts.ts built on the above:
Nostr.hexToNsec / Nostr.nsecToHex, the NostrPublicKey and NostrKeyPair
constructors, and the nsec/npub imports. Each `match ... with | .error _ =>`
wrapper is a TypeScript try/catch collapsing every cause to one message. -/
/-- Model of Nostr.hexToNsec (catch-all rewrites any failure to
"Invalid hex format"). -/
def nostrHexToNsec (hex : String) : Except String String :=
  match (do
    let bytes ← hexToBytes hex
    if bytes.length ≠ 32 then .error "Invalid private key length"
    else do
      let ws ← toWords bytes
      let chars ← bech32Encode ('n' :: 's' :: 'e' :: 'c' :: []) ws 90
      pure (String.mk chars) : Except String String) with
  | .ok s => .ok s
  | .error _ => .error "Invalid hex format"

/-- Model of Nostr.nsecToHex (catch-all rewrites any failure to
"Invalid nsec format"). -/
def nostrNsecToHex (nsec : String) : Except String String :=
  match (do
    let pr ← bech32Decode nsec.data 90
    if pr.1 ≠ 'n' :: 's' :: 'e' :: 'c' :: [] then .error "Invalid nsec prefix"
    else do
      let bytes ← fromWords pr.2
      if bytes.length ≠ 32 then .error "Invalid nsec length"
      else pure (bytesToHex bytes) : Except String String) with
  | .ok s => .ok s
  | .error _ => .error "Invalid nsec format"

/-- Model of the NostrPublicKey constructor: decode hex if given a string,
derive the hex and npub forms. There is no length check and no catch; any
hex or bech32-limit error propagates as thrown. -/
def mkNostrPublicKey (bytesOrHex : String ⊕ List Nat) : Except String PublicKeyT := do
  let bytes ← match bytesOrHex with
    | .inl h => hexToBytes h
    | .inr bs => pure bs
  let ws ← toWords bytes
  let npubChars ← bech32Encode ('n' :: 'p' :: 'u' :: 'b' :: []) ws 90
  pure ⟨bytesToHex bytes, String.mk npubChars, bytes⟩

/-- Model of NostrPublicKey.fromHex: decode then construct from bytes. -/
def publicKeyFromHex (h : String) : Except String PublicKeyT := do
  let bs ← hexToBytes h
  mkNostrPublicKey (.inr bs)

/-- Model of NostrPublicKey.fromNpub: decode, check prefix and 32-byte
length, then construct. -/
def publicKeyFromNpub (npub : String) : Except String PublicKeyT := do
  let pr ← bech32Decode npub.data 90
  if pr.1 ≠ 'n' :: 'p' :: 'u' :: 'b' :: [] then .error "Invalid npub prefix"
  else do
    let bytes ← fromWords pr.2
    if bytes.length ≠ 32 then .error "Invalid npub length"
    else mkNostrPublicKey (.inr bytes)

/-- Model of the NostrKeyPair fields. -/
structure KeyPairT where
  hex : String
  nsec : String
  bytes : List Nat
  publicKey : PublicKeyT
deriving DecidableEq

/-- Model of the NostrKeyPair constructor: the whole body sits in one
try/catch whose handler rethrows every failure — including the internal
"Invalid private key length" — as "Invalid private key hex". -/
def mkNostrKeyPair (S : Schnorr) (bytesOrHex : String ⊕ List Nat) :
    Except String KeyPairT :=
  match (do
    let bytes ← match bytesOrHex with
      | .inl h => hexToBytes h
      | .inr bs => pure bs
    if bytes.length ≠ 32 then .error "Invalid private key length"
    else do
      let ws ← toWords bytes
      let nsecChars ← bech32Encode ('n' :: 's' :: 'e' :: 'c' :: []) ws 90
      let pk ← mkNostrPublicKey (.inr (S.getPublicKey bytes))
      pure (⟨bytesToHex bytes, String.mk nsecChars, bytes, pk⟩ : KeyPairT) :
      Except String KeyPairT) with
  | .ok kp => .ok kp
  | .error _ => .error "Invalid private key hex"

/-- Model of NostrKeyPair.fromNsec: decode, check prefix and length, then
construct from hex; the outer try/catch collapses every failure to
"Invalid nsec format". -/
def keyPairFromNsec (S : Schnorr) (nsec : String) : Except String KeyPairT :=
  match (do
    let pr ← bech32Decode nsec.data 90
    if pr.1 ≠ 'n' :: 's' :: 'e' :: 'c' :: [] then .error "Invalid nsec prefix"
    else do
      let bytes ← fromWords pr.2
      if bytes.length ≠ 32 then .error "Invalid nsec length"
      else mkNostrKeyPair S (.inl (bytesToHex bytes)) : Except String KeyPairT) with
  | .ok kp => .ok kp
  | .error _ => .error "Invalid nsec format"

/-! ### Correctness of the radix-2 regrouping: `convertRadix2` computes the
base-2^tgt digits of the big-endian value of its input. -/
/-- Big-endian value of a digit list in base 2^w. -/
def beVal (w : Nat) : List Nat → Nat
  | [] => 0
  | n :: rest => n * 2 ^ (w * rest.length) + beVal w rest

/-- Concrete 32-byte value used to evaluate the round-trip theorem. -/
def bytes32Sample : List Nat := (List.range 32).map (fun i => (7 * i + 3) % 256)

/-! ### Session pool (model of NostrRelayPool). The pool state is the
relays map (insertion-ordered, as a JavaScript Map iterates) and the
subscription registry. Externally visible actions — websocket sends,
console warnings, and the single-slot callbacks — are reified as a list of
effects; a model function returning a plain value mirrors source code that
can neither throw nor fire anything else. -/
/-- WebSocket readyState. -/
inductive WsReadyState
  | CONNECTING
  | OPEN
  | CLOSING
  | CLOSED
deriving DecidableEq

/-- Pool state: relay map and subscription registry. -/
structure PoolState where
  relays : List (String × WsReadyState)
  subscriptions : List (String × List String)
deriving DecidableEq

/-- Externally visible effects of a pool operation. -/
inductive PoolEffect
  | send (url msg : String)
  | warn (msg : String)
  | cbConnected (url : String)
  | cbClosed (url : String)
  | cbError (url : String)
  | cbEvent (subId : String) (e : NostrEvent) (url : String)
  | cbOk (eventId : String) (accepted : Bool) (msg url : String)
  | cbEose (subId url : String)
  | cbSubClosed (subId url : String)
  | cbNotice (notice url : String)
deriving DecidableEq

/-- Whether an effect is one of the registered user callbacks firing. -/
def PoolEffect.isCallback : PoolEffect → Bool
  | .send _ _ => false
  | .warn _ => false
  | _ => true

/-- Model of the `ws.onclose` handler installed by NostrRelayPool.connect:
`ws.onclose = (ev) => this.onClosedCallback(ev, url)`. Its whole body is the
callback invocation; the relay map and subscription registry are not
touched. -/
def handleWsClosed (pool : PoolState) (url : String) : PoolState × List PoolEffect :=
  (pool, [.cbClosed url])

/-- One optional key of the serialized event object. -/
def jsonOptField (name : String) (v : Option String) : List String :=
  match v with
  | none => []
  | some s => [jsonStr name ++ ":" ++ jsonStr s]

/-- Deterministic JSON serialization of the event object (keys in interface
order), modelling JSON.stringify of the record inside the EVENT frame. -/
def serializeEventObject (e : NostrEvent) : String :=
  "\x7b" ++ String.intercalate ","
    (jsonOptField "id" e.id ++
     [jsonStr "pubkey" ++ ":" ++ jsonStr e.pubkey,
      jsonStr "created_at" ++ ":" ++ toString e.created_at,
      jsonStr "kind" ++ ":" ++ toString e.kind,
      jsonStr "tags" ++ ":" ++ jsonTagsArray e.tags,
      jsonStr "content" ++ ":" ++ jsonStr e.content] ++
     jsonOptField "sig" e.sig) ++ "\x7d"

/-- The serialized `["EVENT", record]` frame. -/
def eventWireMessage (e : NostrEvent) : String :=
  "[" ++ jsonStr "EVENT" ++ "," ++ serializeEventObject e ++ "]"

/-- The relays publish iterates over: the filtered map when an explicit
nonempty subset is given, the whole map otherwise. -/
def publishTargets (pool : PoolState) (relayUrls : List String) :
    List (String × WsReadyState) :=
  if relayUrls.length > 0 then pool.relays.filter (fun p => relayUrls.contains p.1)
  else pool.relays

/-- Model of NostrRelayPool.publish: send the frame on every targeted open
relay, warn for every targeted non-open relay; nothing else happens (no
callback, no throw, no queueing). -/
def publishEffects (pool : PoolState) (e : NostrEvent) (relayUrls : List String) :
    List PoolEffect :=
  (publishTargets pool relayUrls).flatMap (fun p =>
    if p.2 = WsReadyState.OPEN then [.send p.1 (eventWireMessage e)]
    else [.warn ("Cannot publish to " ++ p.1 ++ ": WebSocket is not open")])

/-! ### C8 — the transport closed event. The spec claims it removes the peer
from the connection map and prunes the subscription registry; the installed
handler only fires the closed callback. -/
/-- A pool holding one open relay and one subscription on it. -/
def poolSample : PoolState :=
  ⟨[("wss://relay.a", .OPEN)], [("sub1", ["wss://relay.a"])]⟩

/-- A pool with one open and one closed relay, no subscriptions. -/
def poolSample2 : PoolState :=
  ⟨[("wss://relay.a", .OPEN), ("wss://relay.b", .CLOSED)], []⟩

theorem asciiToBase16_hexChar : ∀ n, n < 16 →
    asciiToBase16 (hexChar n).toNat = some n := by
  decide

theorem hexToBytesGo_flatMap (bs : List Nat) (h : ∀ b ∈ bs, b < 256) :
    hexToBytesGo (bs.flatMap byteToHexChars) = .ok bs := by
  induction bs with
  | nil => rfl
  | cons b rest ih =>
    have hb : b < 256 := h b (List.mem_cons_self ..)
    have h1 : b / 16 < 16 := Nat.div_lt_of_lt_mul (by omega)
    have h2 : b % 16 < 16 := Nat.mod_lt _ (by omega)
    have hrest : hexToBytesGo (rest.flatMap byteToHexChars) = .ok rest :=
      ih (fun x hx => h x (List.mem_cons_of_mem _ hx))
    have hdm : b / 16 * 16 + b % 16 = b := by omega
    simp only [List.flatMap_cons, byteToHexChars, List.cons_append, List.nil_append,
      hexToBytesGo, asciiToBase16_hexChar _ h1, asciiToBase16_hexChar _ h2,
      Except.map, hdm]
    have hrest2 : hexToBytesGo (([] : List Char).append
        ((List.map byteToHexChars rest).flatten)) = Except.ok rest := hrest
    rw [hrest2]

theorem length_bytesToHex (bs : List Nat) :
    (bytesToHex bs).length = 2 * bs.length := by
  induction bs with
  | nil => rfl
  | cons b rest ih =>
    show ((byteToHexChars b) ++ rest.flatMap byteToHexChars).length = 2 * (rest.length + 1)
    rw [List.length_append]
    have h2 : (byteToHexChars b).length = 2 := rfl
    have ih' : (rest.flatMap byteToHexChars).length = 2 * rest.length := ih
    omega

/-- Hex round-trip: decoding the lowercase hex encoding of a byte list
recovers the bytes. -/
theorem hexToBytes_bytesToHex (bs : List Nat) (h : ∀ b ∈ bs, b < 256) :
    hexToBytes (bytesToHex bs) = .ok bs := by
  have hlen := length_bytesToHex bs
  unfold hexToBytes
  rw [hlen, if_neg (by omega)]
  exact hexToBytesGo_flatMap bs h

theorem length_sha256 (msg : List Nat) : (sha256 msg).length = 32 := by
  simp [sha256, wordBE4]

theorem wordBE4_lt (w : Nat) : ∀ b ∈ wordBE4 w, b < 256 := by
  intro b hb
  have h255 : ∀ x : Nat, x &&& 255 < 256 := by
    intro x
    have hx : x &&& 255 = x % 256 := Nat.and_pow_two_sub_one_eq_mod x 8
    omega
  simp only [wordBE4, List.mem_cons, List.not_mem_nil, or_false] at hb
  rcases hb with h | h | h | h <;> (subst h; exact h255 _)

theorem sha256_lt_256 (msg : List Nat) : ∀ b ∈ sha256 msg, b < 256 := by
  intro b hb
  simp only [sha256, List.mem_append, or_assoc] at hb
  rcases hb with h | h | h | h | h | h | h | h <;> exact wordBE4_lt _ _ h

theorem serializeEvent_withIdSig (e : NostrEvent) (i s : Option String) :
    serializeEvent { e with id := i, sig := s } = serializeEvent e := rfl

theorem bytesToHex_ne_empty {bs : List Nat} (h : bs ≠ []) : bytesToHex bs ≠ "" := by
  intro heq
  have hl := length_bytesToHex bs
  rw [heq] at hl
  have h0 : (2 : Nat) * bs.length = 0 := hl.symm
  exact h (List.eq_nil_of_length_eq_zero (by omega))

theorem sha256_ne_nil (msg : List Nat) : sha256 msg ≠ [] := by
  intro h
  have := length_sha256 msg
  rw [h] at this
  simp at this

theorem exceptBind_ok {ε α β : Type} (a : α) (f : α → Except ε β) :
    (Except.ok a : Except ε α).bind f = f a := rfl

theorem exceptSeq_ok {ε α β : Type} (a : α) (f : α → Except ε β) :
    ((Except.ok a : Except ε α) >>= f) = f a := rfl

theorem exceptSeq_pure {ε α β : Type} (a : α) (f : α → Except ε β) :
    ((pure a : Except ε α) >>= f) = f a := rfl

theorem signEvent_inr (S : Schnorr) (e : NostrEvent) (k aux : List Nat) :
    signEvent S e (.inr k) aux =
      .ok { e with
        id := some (bytesToHex (sha256 (utf8Bytes (serializeEvent e)))),
        sig := some (bytesToHex (S.sign (sha256 (utf8Bytes (serializeEvent e))) k aux)) } :=
  rfl

/-! ### C1 — verify after sign. The code signs with the supplied key but
verifies against the event's own `pubkey` field, which signEvent never sets;
the property only holds when the record's pubkey already equals the signing
key's public key. -/
/-- C1 (counterexample): signing a record whose `pubkey` is the hex of a
different key than the signer produces a record that verify rejects: with the
concrete scheme `toySchnorr` (which satisfies sign/verify correctness),
private key `kOne` and record `ePub03`, `verify (sign r k)` is `ok false`,
not `ok true`. -/
theorem claim1_counterexample :
    (signEvent toySchnorr ePub03 (.inr kOne) []).bind (verifyEvent toySchnorr) =
      .ok false := by
  decide

/-- C1 (amended): for every scheme, key and auxiliary randomness such that
the scheme round-trips for that key and produces well-formed byte output,
and every record whose `pubkey` equals the hex of the key's public key,
verifying the signed record returns `ok true`. -/
theorem claim1_amended_sign_then_verify (S : Schnorr) (k aux : List Nat) (e : NostrEvent)
    (hpk : e.pubkey = bytesToHex (S.getPublicKey k))
    (hpkValid : ∀ b ∈ S.getPublicKey k, b < 256)
    (hsigValid : ∀ b ∈ S.sign (sha256 (utf8Bytes (serializeEvent e))) k aux, b < 256)
    (hsigNe : S.sign (sha256 (utf8Bytes (serializeEvent e))) k aux ≠ [])
    (hcorrect : ∀ h a, S.verify (S.sign h k a) h (S.getPublicKey k) = true) :
    (signEvent S e (.inr k) aux).bind (verifyEvent S) = .ok true := by
  rw [signEvent_inr, exceptBind_ok]
  have hid_ne : bytesToHex (sha256 (utf8Bytes (serializeEvent e))) ≠ "" :=
    bytesToHex_ne_empty (sha256_ne_nil _)
  have hsig_ne : bytesToHex (S.sign (sha256 (utf8Bytes (serializeEvent e))) k aux) ≠ "" :=
    bytesToHex_ne_empty hsigNe
  simp only [verifyEvent, serializeEvent_withIdSig]
  rw [if_neg (by push_neg; exact ⟨hid_ne, hsig_ne⟩)]
  rw [if_neg (by simp)]
  rw [hexToBytes_bytesToHex _ hsigValid, exceptSeq_ok]
  rw [hpk, hexToBytes_bytesToHex _ hpkValid, exceptSeq_ok]
  rw [hcorrect]
  rfl

/-- C1 (witness): the amended theorem evaluated at `toySchnorr`, `kOne`,
`ePub02` (whose pubkey is the toy public key of `kOne`). -/
theorem claim1_amended_witness :
    ePub02.pubkey = bytesToHex (toySchnorr.getPublicKey kOne) ∧
    (signEvent toySchnorr ePub02 (.inr kOne) []).bind (verifyEvent toySchnorr) =
      .ok true := by
  refine ⟨by decide, claim1_amended_sign_then_verify toySchnorr kOne [] ePub02
    (by decide) (by decide) (by decide) (by decide) ?_⟩
  intro h a
  simp [toySchnorr]

/-! ### C2 — identifier mismatch fails before any signature work. -/
/-- C2: any record whose stated identifier is present but differs from the
lowercase hex of the SHA-256 of its canonical serialization is rejected,
whatever the signature field holds and whatever the schnorr scheme does. -/
theorem claim2_id_mismatch_rejected (S : Schnorr) (e : NostrEvent) (i : String)
    (hid : e.id = some i)
    (hne : i ≠ bytesToHex (sha256 (utf8Bytes (serializeEvent e)))) :
    verifyEvent S e = .ok false := by
  cases hs : e.sig with
  | none => simp only [verifyEvent, hid, hs]
  | some s =>
    simp only [verifyEvent, hid, hs]
    by_cases hfalsy : i = "" ∨ s = ""
    · rw [if_pos hfalsy]
    · rw [if_neg hfalsy, if_pos hne.symm]

/-- C2 (witness): the theorem evaluated at `eWrongId`, whose stated id is 64
zeros while the true hash of its serialization is a different hex string. -/
theorem claim2_witness : verifyEvent toySchnorr eWrongId = .ok false :=
  claim2_id_mismatch_rejected toySchnorr eWrongId
    (String.mk (List.replicate 64 '0')) (by decide) (by decide)

/-! ### C3 — verify is claimed to return a boolean and never throw. The
absent-field half holds, but when the stated id matches the recomputed hash
and the stored signature (or pubkey) is not valid hex, the hex decode inside
verifyEvent throws. -/
/-- C3 (counterexample): on `eBadSigHex` — stated id equal to the true hash
of its serialization, signature `"zz"` — verifyEvent throws the hex-decode
error instead of returning a boolean. -/
theorem claim3_counterexample :
    verifyEvent toySchnorr eBadSigHex =
      .error "hex string expected, got non-hex character" := by
  decide

/-- C3 (amended): if either the identifier or the signature field is absent,
verify returns `ok false` without throwing; verification is not
exception-free for records whose present signature or pubkey is not valid
hex. -/
theorem claim3_amended_absent_fail_closed (S : Schnorr) (e : NostrEvent)
    (h : e.id = none ∨ e.sig = none) : verifyEvent S e = .ok false := by
  rcases h with h | h
  · cases hs : e.sig <;> simp only [verifyEvent, h, hs]
  · cases hi : e.id <;> simp only [verifyEvent, h, hi]

/-- C3 (witness): the amended theorem evaluated at `eNoId`. -/
theorem claim3_amended_witness : verifyEvent toySchnorr eNoId = .ok false :=
  claim3_amended_absent_fail_closed toySchnorr eNoId (Or.inl rfl)

/-! ### C7 — signing returns a fresh copy with all six content fields
preserved and id/sig populated. `signEvent` is a pure function of the input
record (the source builds the result with an object spread), so the input
value is untouched by construction. -/
/-- C7: signing with raw key bytes succeeds and returns a record whose
authorId, createdAt, kind, tags and content equal those of the input, with
identifier and signature populated from the recomputed hash. -/
theorem claim7_sign_returns_populated_copy (S : Schnorr) (e : NostrEvent)
    (k aux : List Nat) :
    ∃ r, signEvent S e (.inr k) aux = .ok r ∧
      r.pubkey = e.pubkey ∧ r.created_at = e.created_at ∧ r.kind = e.kind ∧
      r.tags = e.tags ∧ r.content = e.content ∧
      r.id = some (bytesToHex (sha256 (utf8Bytes (serializeEvent e)))) ∧
      r.sig = some (bytesToHex (S.sign (sha256 (utf8Bytes (serializeEvent e))) k aux)) :=
  ⟨_, signEvent_inr S e k aux, rfl, rfl, rfl, rfl, rfl, rfl, rfl⟩

/-! ### C10 — NostrPublicKey.verifyEvent ignores the receiver handle. -/
/-- C10: record verification through any two public-key handles returns the
same result; the method delegates to Nostr.verifyEvent, which uses only the
record's own embedded pubkey. -/
theorem claim10_verify_ignores_receiver (S : Schnorr) (pk1 pk2 : PublicKeyT)
    (e : NostrEvent) :
    publicKeyVerifyEvent S pk1 e = publicKeyVerifyEvent S pk2 e := rfl

theorem beVal_lt (w : Nat) (l : List Nat) (h : ∀ n ∈ l, n < 2 ^ w) :
    beVal w l < 2 ^ (w * l.length) := by
  induction l with
  | nil => simp [beVal]
  | cons n rest ih =>
    have hn : n < 2 ^ w := h n (List.mem_cons_self ..)
    have hr : beVal w rest < 2 ^ (w * rest.length) :=
      ih (fun x hx => h x (List.mem_cons_of_mem _ hx))
    have hmul : (n + 1) * 2 ^ (w * rest.length) ≤ 2 ^ w * 2 ^ (w * rest.length) :=
      Nat.mul_le_mul_right _ hn
    have hsplit : (n + 1) * 2 ^ (w * rest.length) =
        n * 2 ^ (w * rest.length) + 2 ^ (w * rest.length) := by ring
    have hpow : 2 ^ w * 2 ^ (w * rest.length) = 2 ^ (w * (rest.length + 1)) := by
      rw [← Nat.pow_add]
      congr 1
      ring
    show n * 2 ^ (w * rest.length) + beVal w rest < 2 ^ (w * (n :: rest).length)
    simp only [List.length_cons]
    omega

theorem beVal_append (w : Nat) (xs ys : List Nat) :
    beVal w (xs ++ ys) = beVal w xs * 2 ^ (w * ys.length) + beVal w ys := by
  induction xs with
  | nil => simp [beVal]
  | cons x xs ih =>
    show x * 2 ^ (w * (xs ++ ys).length) + beVal w (xs ++ ys) = _
    rw [ih, List.length_append]
    show _ = (x * 2 ^ (w * xs.length) + beVal w xs) * 2 ^ (w * ys.length) + beVal w ys
    rw [Nat.add_mul, Nat.mul_assoc, ← Nat.pow_add, Nat.mul_add, Nat.add_assoc]

theorem beVal_inj (w : Nat) : ∀ xs ys : List Nat, xs.length = ys.length →
    (∀ n ∈ xs, n < 2 ^ w) → (∀ n ∈ ys, n < 2 ^ w) →
    beVal w xs = beVal w ys → xs = ys := by
  intro xs
  induction xs with
  | nil =>
    intro ys hlen _ _ _
    exact (List.eq_nil_of_length_eq_zero hlen.symm).symm
  | cons x xs ih =>
    intro ys hlen hxs hys hval
    cases ys with
    | nil => simp at hlen
    | cons y ys =>
      have hlen' : xs.length = ys.length := by simpa using hlen
      have hx : x < 2 ^ w := hxs x (List.mem_cons_self ..)
      have hy : y < 2 ^ w := hys y (List.mem_cons_self ..)
      have hbx : beVal w xs < 2 ^ (w * xs.length) :=
        beVal_lt w xs (fun n hn => hxs n (List.mem_cons_of_mem _ hn))
      have hby : beVal w ys < 2 ^ (w * ys.length) :=
        beVal_lt w ys (fun n hn => hys n (List.mem_cons_of_mem _ hn))
      have hv : x * 2 ^ (w * xs.length) + beVal w xs =
          y * 2 ^ (w * ys.length) + beVal w ys := hval
      rw [← hlen'] at hv hby
      have hpow : 0 < 2 ^ (w * xs.length) := Nat.pos_pow_of_pos _ (by omega)
      have hxy : x = y := by
        by_contra hne
        rcases Nat.lt_or_ge x y with hlt | hge
        · have h1 : (x + 1) * 2 ^ (w * xs.length) ≤ y * 2 ^ (w * xs.length) :=
            Nat.mul_le_mul_right _ hlt
          have h2 : (x + 1) * 2 ^ (w * xs.length) =
              x * 2 ^ (w * xs.length) + 2 ^ (w * xs.length) := by ring
          omega
        · have hgt : y < x := by omega
          have h1 : (y + 1) * 2 ^ (w * xs.length) ≤ x * 2 ^ (w * xs.length) :=
            Nat.mul_le_mul_right _ hgt
          have h2 : (y + 1) * 2 ^ (w * xs.length) =
              y * 2 ^ (w * xs.length) + 2 ^ (w * xs.length) := by ring
          omega
      subst hxy
      have hrest : beVal w xs = beVal w ys := by omega
      rw [ih ys hlen' (fun n hn => hxs n (List.mem_cons_of_mem _ hn))
        (fun n hn => hys n (List.mem_cons_of_mem _ hn)) hrest]

theorem mod_pow_decomp (x m t : Nat) :
    x % 2 ^ (m + t) = (x / 2 ^ m % 2 ^ t) * 2 ^ m + x % 2 ^ m := by
  rw [Nat.pow_add, Nat.mod_mul]
  ring

theorem shiftOr_eq_mul_add {n frm : Nat} (carry : Nat) (h : n < 2 ^ frm) :
    (carry <<< frm) ||| n = carry * 2 ^ frm + n := by
  rw [Nat.shiftLeft_eq, Nat.mul_comm carry, ← Nat.mul_add_lt_is_or h, Nat.mul_comm]

theorem crEmitGo_spec (tgt carry : Nat) (htgt : 0 < tgt) :
    ∀ fuel pos, pos ≤ fuel →
    (crEmitGo tgt (2 ^ tgt - 1) carry fuel pos).2 = pos % tgt ∧
    (crEmitGo tgt (2 ^ tgt - 1) carry fuel pos).1.length = pos / tgt ∧
    beVal tgt (crEmitGo tgt (2 ^ tgt - 1) carry fuel pos).1 =
      (carry % 2 ^ pos) / 2 ^ (pos % tgt) ∧
    (∀ d ∈ (crEmitGo tgt (2 ^ tgt - 1) carry fuel pos).1, d < 2 ^ tgt) := by
  intro fuel
  induction fuel with
  | zero =>
    intro pos hpos
    have hp0 : pos = 0 := by omega
    subst hp0
    refine ⟨by simp [crEmitGo, Nat.zero_mod], by simp [crEmitGo], ?_, by simp [crEmitGo]⟩
    simp [crEmitGo, beVal, Nat.mod_one]
  | succ fuel ih =>
    intro pos hpos
    by_cases hc : tgt ≤ pos
    · have hred : crEmitGo tgt (2 ^ tgt - 1) carry (fuel + 1) pos =
          (((carry >>> (pos - tgt)) &&& (2 ^ tgt - 1)) ::
            (crEmitGo tgt (2 ^ tgt - 1) carry fuel (pos - tgt)).1,
           (crEmitGo tgt (2 ^ tgt - 1) carry fuel (pos - tgt)).2) := by
        rw [crEmitGo, if_pos ⟨htgt, hc⟩]
      obtain ⟨ih2, ih1, ihv, ihb⟩ := ih (pos - tgt) (by omega)
      have hposeq : pos - tgt + tgt = pos := by omega
      have hmod : (pos - tgt) % tgt = pos % tgt := by
        conv_rhs => rw [← hposeq]
        rw [Nat.add_mod_right]
      have hdiv : pos / tgt = (pos - tgt) / tgt + 1 := by
        conv_lhs => rw [← hposeq]
        rw [Nat.add_div_right _ htgt]
      have hd : (carry >>> (pos - tgt)) &&& (2 ^ tgt - 1) =
          (carry / 2 ^ (pos - tgt)) % 2 ^ tgt := by
        rw [Nat.shiftRight_eq_div_pow, Nat.and_pow_two_sub_one_eq_mod]
      refine ⟨by rw [hred]; exact ih2.trans hmod, by rw [hred]; simp [ih1, hdiv], ?_, ?_⟩
      · rw [hred]
        show ((carry >>> (pos - tgt)) &&& (2 ^ tgt - 1)) *
            2 ^ (tgt * (crEmitGo tgt (2 ^ tgt - 1) carry fuel (pos - tgt)).1.length) +
            beVal tgt (crEmitGo tgt (2 ^ tgt - 1) carry fuel (pos - tgt)).1 = _
        have hrm : pos % tgt ≤ pos - tgt := by
          have h1 : (pos - tgt) % tgt = pos % tgt := hmod
          have h2 := Nat.mod_le (pos - tgt) tgt
          omega
        have htq : tgt * ((pos - tgt) / tgt) = (pos - tgt) - pos % tgt := by
          have h3 := Nat.div_add_mod (pos - tgt) tgt
          omega
        rw [hd, ih1, ihv, hmod, htq]
        have hdecomp : carry % 2 ^ pos =
            (carry / 2 ^ (pos - tgt) % 2 ^ tgt) * 2 ^ (pos - tgt) + carry % 2 ^ (pos - tgt) := by
          conv_lhs => rw [← hposeq]
          exact mod_pow_decomp carry (pos - tgt) tgt
        rw [hdecomp]
        have hA : (carry / 2 ^ (pos - tgt) % 2 ^ tgt) * 2 ^ (pos - tgt) =
            2 ^ (pos % tgt) *
              ((carry / 2 ^ (pos - tgt) % 2 ^ tgt) * 2 ^ ((pos - tgt) - pos % tgt)) := by
          have hms : (2 : Nat) ^ (pos - tgt) =
              2 ^ ((pos - tgt) - pos % tgt) * 2 ^ (pos % tgt) := by
            rw [← Nat.pow_add]
            congr 1
            omega
          rw [hms]
          ring
        rw [hA, Nat.mul_add_div (Nat.two_pow_pos _)]
      · rw [hred]
        intro d hdm
        rcases List.mem_cons.mp hdm with h | h
        · subst h
          rw [hd]
          exact Nat.mod_lt _ (Nat.pos_pow_of_pos _ (by omega))
        · exact ihb d h
    · have hred : crEmitGo tgt (2 ^ tgt - 1) carry (fuel + 1) pos = ([], pos) := by
        rw [crEmitGo, if_neg (by omega)]
      have hmod : pos % tgt = pos := Nat.mod_eq_of_lt (by omega)
      have hdiv : pos / tgt = 0 := Nat.div_eq_of_lt (by omega)
      refine ⟨by simp [hred, hmod], by simp [hred, hdiv], ?_, by simp [hred]⟩
      have hlt : carry % 2 ^ pos < 2 ^ pos := Nat.mod_lt _ (Nat.two_pow_pos _)
      simp [hred, beVal, hmod, Nat.div_eq_of_lt hlt]

theorem crLoop_spec (frm tgt : Nat) (_hfrm : 0 < frm) (htgt : 0 < tgt)
    (hsum : frm + tgt ≤ 33) :
    ∀ (data : List Nat) (carry pos : Nat),
    (∀ n ∈ data, n < 2 ^ frm) → carry < 2 ^ pos → pos < tgt →
    ∃ res c' p', crLoop frm tgt (2 ^ tgt - 1) data carry pos = .ok (res, c', p') ∧
      p' < tgt ∧ c' < 2 ^ p' ∧
      tgt * res.length + p' = pos + frm * data.length ∧
      beVal tgt res * 2 ^ p' + c' = carry * 2 ^ (frm * data.length) + beVal frm data ∧
      (∀ d ∈ res, d < 2 ^ tgt) := by
  intro data
  induction data with
  | nil =>
    intro carry pos hd hc hp
    exact ⟨[], carry, pos, rfl, hp, hc, by simp, by simp [beVal], by simp⟩
  | cons n rest ih =>
    intro carry pos hd hc hp
    have hn : n < 2 ^ frm := hd n (List.mem_cons_self ..)
    have hnle : ¬ 2 ^ frm ≤ n := by omega
    have hover : ¬ 32 < pos + frm := by omega
    have hcarry1 : (carry <<< frm) ||| n = carry * 2 ^ frm + n := shiftOr_eq_mul_add carry hn
    have hc1lt : (carry <<< frm) ||| n < 2 ^ (pos + frm) := by
      have h2 : (carry + 1) * 2 ^ frm ≤ 2 ^ pos * 2 ^ frm := Nat.mul_le_mul_right _ hc
      have h3 : (carry + 1) * 2 ^ frm = carry * 2 ^ frm + 2 ^ frm := by ring
      have h4 : (2 : Nat) ^ pos * 2 ^ frm = 2 ^ (pos + frm) := (Nat.pow_add 2 pos frm).symm
      omega
    obtain ⟨he2, he1, hev, heb⟩ := crEmitGo_spec tgt ((carry <<< frm) ||| n) htgt
      (pos + frm) (pos + frm) (Nat.le_refl _)
    rcases hep : crEmitGo tgt (2 ^ tgt - 1) ((carry <<< frm) ||| n) (pos + frm) (pos + frm)
      with ⟨emitted, p1⟩
    rw [hep] at he2 he1 hev heb
    simp only at he2 he1 hev heb
    have hp1lt : p1 < tgt := by
      rw [he2]
      exact Nat.mod_lt _ htgt
    have hc2 : ((carry <<< frm) ||| n) &&& (2 ^ p1 - 1) = ((carry <<< frm) ||| n) % 2 ^ p1 :=
      Nat.and_pow_two_sub_one_eq_mod _ _
    have hc2lt : ((carry <<< frm) ||| n) % 2 ^ p1 < 2 ^ p1 :=
      Nat.mod_lt _ (Nat.two_pow_pos _)
    obtain ⟨res2, c', p', hloop2, hp', hc', hlen2, hval2, hbnd2⟩ :=
      ih (((carry <<< frm) ||| n) &&& (2 ^ p1 - 1)) p1
        (fun x hx => hd x (List.mem_cons_of_mem _ hx)) (by rw [hc2]; exact hc2lt) hp1lt
    rw [hc2] at hval2
    have hloop : crLoop frm tgt (2 ^ tgt - 1) (n :: rest) carry pos =
        (crLoop frm tgt (2 ^ tgt - 1) rest
          (((carry <<< frm) ||| n) &&& (2 ^ p1 - 1)) p1).map
          (fun r => (emitted ++ r.1, r.2.1, r.2.2)) := by
      simp only [crLoop]
      rw [if_neg hnle, if_neg hover]
      rw [show crEmit tgt (2 ^ tgt - 1) ((carry <<< frm) ||| n) (pos + frm) =
        (emitted, p1) from hep]
    refine ⟨emitted ++ res2, c', p', ?_, hp', hc', ?_, ?_, ?_⟩
    · rw [hloop, hloop2]
      rfl
    · have e1 : tgt * (emitted ++ res2).length =
          tgt * emitted.length + tgt * res2.length := by
        rw [List.length_append]
        ring
      have e2 : tgt * emitted.length = tgt * ((pos + frm) / tgt) := by rw [he1]
      have e3 : frm * (n :: rest).length = frm * rest.length + frm := by
        simp [List.length_cons]
        ring
      have hdm := Nat.div_add_mod (pos + frm) tgt
      omega
    · have hev2 : beVal tgt emitted = ((carry <<< frm) ||| n) / 2 ^ p1 := by
        rw [hev, ← he2, Nat.mod_eq_of_lt hc1lt]
      have hkey : beVal tgt emitted * 2 ^ p1 + ((carry <<< frm) ||| n) % 2 ^ p1 =
          (carry <<< frm) ||| n := by
        rw [hev2, Nat.mul_comm]
        exact Nat.div_add_mod _ _
      calc beVal tgt (emitted ++ res2) * 2 ^ p' + c'
          = beVal tgt emitted * (2 ^ (tgt * res2.length) * 2 ^ p') +
              (beVal tgt res2 * 2 ^ p' + c') := by
            rw [beVal_append]
            ring
        _ = beVal tgt emitted * 2 ^ (tgt * res2.length + p') +
              (((carry <<< frm) ||| n) % 2 ^ p1 * 2 ^ (frm * rest.length) +
                beVal frm rest) := by
            rw [← Nat.pow_add, hval2]
        _ = beVal tgt emitted * 2 ^ (p1 + frm * rest.length) +
              (((carry <<< frm) ||| n) % 2 ^ p1 * 2 ^ (frm * rest.length) +
                beVal frm rest) := by
            rw [hlen2]
        _ = (beVal tgt emitted * 2 ^ p1 + ((carry <<< frm) ||| n) % 2 ^ p1) *
              2 ^ (frm * rest.length) + beVal frm rest := by
            rw [Nat.pow_add]
            ring
        _ = ((carry <<< frm) ||| n) * 2 ^ (frm * rest.length) + beVal frm rest := by
            rw [hkey]
        _ = (carry * 2 ^ frm + n) * 2 ^ (frm * rest.length) + beVal frm rest := by
            rw [hcarry1]
        _ = carry * 2 ^ (frm * (n :: rest).length) + beVal frm (n :: rest) := by
            show _ = carry * 2 ^ (frm * (rest.length + 1)) +
              (n * 2 ^ (frm * rest.length) + beVal frm rest)
            have hfe : frm * (rest.length + 1) = frm + frm * rest.length := by ring
            rw [hfe, Nat.pow_add]
            ring
    · intro d hdm
      rcases List.mem_append.mp hdm with h | h
      · exact heb d h
      · exact hbnd2 d h

theorem toWords_spec (bytes : List Nat) (h : ∀ b ∈ bytes, b < 256) :
    ∃ W, toWords bytes = .ok W ∧ (∀ w ∈ W, w < 32) ∧
      5 * W.length = 8 * bytes.length + (5 - (8 * bytes.length) % 5) % 5 ∧
      beVal 5 W = beVal 8 bytes * 2 ^ ((5 - (8 * bytes.length) % 5) % 5) := by
  obtain ⟨res, c', p', hloop, hp', hc', hlen, hval, hbnd⟩ :=
    crLoop_spec 8 5 (by omega) (by omega) (by omega) bytes 0 0
      (fun n hn => by simpa using h n hn) (by simp) (by omega)
  simp only [Nat.zero_mul, Nat.zero_add] at hval
  unfold toWords convertRadix2
  dsimp only
  rw [hloop, exceptSeq_ok]
  dsimp only
  by_cases hp0 : p' = 0
  · subst hp0
    have hc0 : c' = 0 := by omega
    subst hc0
    have hmod0 : (8 * bytes.length) % 5 = 0 := by omega
    rw [if_neg (by simp), if_neg (by simp), if_neg (by simp)]
    refine ⟨res, rfl, fun w hw => by simpa using hbnd w hw, by omega, ?_⟩
    rw [hmod0]
    simp only [Nat.sub_zero, Nat.mod_self, Nat.pow_zero, Nat.mul_one]
    have hv : beVal 5 res * 2 ^ 0 + 0 = beVal 8 bytes := hval
    simpa using hv
  · have hmodp : (8 * bytes.length) % 5 = p' := by omega
    have hpadeq : (5 - (8 * bytes.length) % 5) % 5 = 5 - p' := by omega
    have hcf : (c' <<< (5 - p')) &&& (2 ^ 5 - 1) = c' * 2 ^ (5 - p') := by
      rw [Nat.shiftLeft_eq, Nat.and_pow_two_sub_one_eq_mod]
      apply Nat.mod_eq_of_lt
      have h2 : (c' + 1) * 2 ^ (5 - p') ≤ 2 ^ p' * 2 ^ (5 - p') :=
        Nat.mul_le_mul_right _ hc'
      have h3 : (c' + 1) * 2 ^ (5 - p') = c' * 2 ^ (5 - p') + 2 ^ (5 - p') := by ring
      have h4 : (2 : Nat) ^ p' * 2 ^ (5 - p') = 2 ^ 5 := by
        rw [← Nat.pow_add]
        congr 1
        omega
      have h5 : 0 < (2 : Nat) ^ (5 - p') := Nat.two_pow_pos _
      omega
    rw [if_neg (by simp), if_neg (by simp), if_pos (by exact ⟨rfl, by omega⟩)]
    refine ⟨res ++ [(c' <<< (5 - p')) &&& (2 ^ 5 - 1)], rfl, ?_, ?_, ?_⟩
    · intro w hw
      rcases List.mem_append.mp hw with hw | hw
      · simpa using hbnd w hw
      · simp only [List.mem_cons, List.not_mem_nil, or_false] at hw
        subst hw
        rw [hcf]
        have h2 : (c' + 1) * 2 ^ (5 - p') ≤ 2 ^ p' * 2 ^ (5 - p') :=
          Nat.mul_le_mul_right _ hc'
        have h3 : (c' + 1) * 2 ^ (5 - p') = c' * 2 ^ (5 - p') + 2 ^ (5 - p') := by ring
        have h4 : (2 : Nat) ^ p' * 2 ^ (5 - p') = 2 ^ 5 := by
          rw [← Nat.pow_add]
          congr 1
          omega
        have h5 : (2 : Nat) ^ 5 = 32 := by norm_num
        have h6 : 0 < (2 : Nat) ^ (5 - p') := Nat.two_pow_pos _
        omega
    · simp only [List.length_append, List.length_cons, List.length_nil]
      omega
    · rw [hpadeq, beVal_append, hcf]
      show beVal 5 res * 2 ^ (5 * 1) + (((c' * 2 ^ (5 - p'))) * 2 ^ (5 * 0) + 0) =
        beVal 8 bytes * 2 ^ (5 - p')
      have h4 : (2 : Nat) ^ p' * 2 ^ (5 - p') = 2 ^ (5 * 1) := by
        rw [← Nat.pow_add]
        congr 1
        omega
      calc beVal 5 res * 2 ^ (5 * 1) + ((c' * 2 ^ (5 - p')) * 2 ^ (5 * 0) + 0)
          = beVal 5 res * (2 ^ p' * 2 ^ (5 - p')) + c' * 2 ^ (5 - p') := by
            rw [h4]
            ring
        _ = (beVal 5 res * 2 ^ p' + c') * 2 ^ (5 - p') := by ring
        _ = beVal 8 bytes * 2 ^ (5 - p') := by rw [hval]

theorem wordsRoundtrip (bytes : List Nat) (h : ∀ b ∈ bytes, b < 256)
    (hlen32 : bytes.length = 32) :
    ∃ W, toWords bytes = .ok W ∧ W.length = 52 ∧ (∀ w ∈ W, w < 32) ∧
      fromWords W = .ok bytes := by
  obtain ⟨W, hW, hbnd, hlenW, hvalW⟩ := toWords_spec bytes h
  rw [hlen32] at hlenW hvalW
  norm_num at hlenW hvalW
  have hWlen : W.length = 52 := by omega
  obtain ⟨res2, c2, p2, hloop2, hp2, hc2, hlen2, hval2, hbnd2⟩ :=
    crLoop_spec 5 8 (by omega) (by omega) (by omega) W 0 0
      (fun w hw => by simpa using hbnd w hw) (by simp) (by omega)
  simp only [Nat.zero_mul, Nat.zero_add] at hval2
  rw [hWlen] at hlen2
  have hp2v : p2 = 4 := by omega
  have hlen2v : res2.length = 32 := by omega
  subst hp2v
  rw [hvalW] at hval2
  have hc20 : c2 = 0 ∧ beVal 8 res2 = beVal 8 bytes := by
    have h16 : (2 : Nat) ^ 4 = 16 := by norm_num
    rw [h16] at hval2 hc2
    omega
  obtain ⟨hc20, hbeq⟩ := hc20
  subst hc20
  have hres2 : res2 = bytes :=
    beVal_inj 8 res2 bytes (by omega)
      (fun n hn => hbnd2 n hn)
      (fun n hn => by simpa using h n hn) hbeq
  refine ⟨W, hW, hWlen, hbnd, ?_⟩
  unfold fromWords convertRadix2
  dsimp only
  rw [hloop2, exceptSeq_ok]
  dsimp only
  rw [if_neg (by simp), if_neg (by simp), if_neg (by simp)]
  rw [hres2]

theorem cr30_spec (x : Nat) (hx : x < 1073741824) :
    ∃ s, convertRadix2 [x] 30 5 false = .ok s ∧ s.length = 6 ∧ ∀ d ∈ s, d < 32 := by
  obtain ⟨he2, he1, hev, heb⟩ := crEmitGo_spec 5 x (by omega) 30 30 (Nat.le_refl _)
  have hx30 : x < 2 ^ 30 := by
    have : (2 : Nat) ^ 30 = 1073741824 := by norm_num
    omega
  have hloop : crLoop 30 5 (2 ^ 5 - 1) [x] 0 0 =
      .ok ((crEmitGo 5 (2 ^ 5 - 1) x 30 30).1, 0, 0) := by
    have hc1 : ((0 : Nat) <<< 30) ||| x = x := by
      rw [Nat.zero_shiftLeft]
      exact Nat.zero_or x
    simp only [crLoop]
    rw [if_neg (by omega), if_neg (by omega)]
    show (crLoop 30 5 (2 ^ 5 - 1) [] ((((0 : Nat) <<< 30) ||| x) &&&
        (2 ^ (crEmit 5 (2 ^ 5 - 1) (((0 : Nat) <<< 30) ||| x) (0 + 30)).2 - 1))
        (crEmit 5 (2 ^ 5 - 1) (((0 : Nat) <<< 30) ||| x) (0 + 30)).2).map _ = _
    rw [show ((0 : Nat) + 30) = 30 from rfl, hc1]
    show (Except.ok ([], _, _)).map _ = _
    have hsnd : (crEmit 5 (2 ^ 5 - 1) x 30).2 = 0 := by
      show (crEmitGo 5 (2 ^ 5 - 1) x 30 30).2 = 0
      rw [he2]
    rw [hsnd]
    show Except.ok ((crEmit 5 (2 ^ 5 - 1) x 30).1 ++ [], x &&& (2 ^ 0 - 1), 0) = _
    have hand : x &&& (2 ^ 0 - 1) = 0 := by
      rw [Nat.and_pow_two_sub_one_eq_mod]
      simp [Nat.mod_one]
    rw [hand, List.append_nil]
    rfl
  refine ⟨(crEmitGo 5 (2 ^ 5 - 1) x 30 30).1, ?_, ?_, ?_⟩
  · unfold convertRadix2
    dsimp only
    rw [hloop, exceptSeq_ok]
    dsimp only
    rw [if_neg (by simp), if_neg (by simp [Nat.zero_shiftLeft]), if_neg (by simp)]
  · rw [he1]
  · intro d hd
    simpa using heb d hd

/-! ### Bech32 encode/decode round-trip. Decode recomputes the checksum of
the decoded prefix and words with the same function encode used, so the
round-trip needs no algebra about the polymod itself. -/
theorem bechWordOf_bechCharOf : ∀ w, w < 32 → bechWordOf (bechCharOf w) = .ok w := by
  decide

theorem bechCharOf_ne_one : ∀ w, w < 32 → bechCharOf w ≠ '1' := by
  decide

theorem lowerChar_bechCharOf : ∀ w, w < 32 → lowerChar (bechCharOf w) = bechCharOf w := by
  decide

theorem mapSelf {α : Type} (f : α → α) :
    ∀ l : List α, (∀ c ∈ l, f c = c) → l.map f = l := by
  intro l
  induction l with
  | nil => intro _; rfl
  | cons x xs ih =>
    intro h
    simp only [List.map_cons, h x (List.mem_cons_self ..),
      ih (fun c hc => h c (List.mem_cons_of_mem _ hc))]

theorem lastIndexOfChar_not_mem (c : Char) :
    ∀ l : List Char, c ∉ l → lastIndexOfChar l c = none := by
  intro l
  induction l with
  | nil => intro _; rfl
  | cons x xs ih =>
    intro h
    have hx : x ≠ c := fun he => h (he ▸ List.mem_cons_self ..)
    have hxs : c ∉ xs := fun hm => h (List.mem_cons_of_mem _ hm)
    simp only [lastIndexOfChar, ih hxs, if_neg hx]

theorem lastIndexOfChar_append (c : Char) (d : List Char) (hd : c ∉ d) :
    ∀ p : List Char, lastIndexOfChar (p ++ c :: d) c = some p.length := by
  intro p
  induction p with
  | nil =>
    simp [lastIndexOfChar, lastIndexOfChar_not_mem c d hd]
  | cons x p ih =>
    have ih2 : lastIndexOfChar (p.append (c :: d)) c = some p.length := ih
    simp [lastIndexOfChar, ih, ih2]

theorem mapM_wordOf_map (ws : List Nat) (h : ∀ w ∈ ws, w < 32) :
    (ws.map bechCharOf).mapM bechWordOf = .ok ws := by
  induction ws with
  | nil => rfl
  | cons w ws ih =>
    rw [List.map_cons, List.mapM_cons,
      bechWordOf_bechCharOf w (h w (List.mem_cons_self ..)),
      ih (fun x hx => h x (List.mem_cons_of_mem _ hx))]
    rfl

theorem bechAlphEncode_ok (ws : List Nat) (h : ∀ w ∈ ws, w < 32) :
    bechAlphEncode ws = .ok (ws.map bechCharOf) := by
  unfold bechAlphEncode
  induction ws with
  | nil => rfl
  | cons w ws ih =>
    rw [List.mapM_cons, if_pos (h w (List.mem_cons_self ..)),
      ih (fun x hx => h x (List.mem_cons_of_mem _ hx))]
    rfl

theorem bechChecksum_ok (hrp : List Char) (words : List Nat)
    (hhr : hrp.any (fun c => decide (c.toNat < 33 ∨ 126 < c.toNat)) = false) :
    ∃ sw : List Nat, bechChecksum hrp words = .ok (sw.map bechCharOf) ∧ sw.length = 6 ∧
      ∀ w ∈ sw, w < 32 := by
  obtain ⟨s, hs, hslen, hsb⟩ := cr30_spec
    ((((List.range 6).foldl (fun chk _ => bech32Polymod chk)
      (words.foldl (fun chk v => bech32Polymod chk ^^^ v)
        (hrp.foldl (fun chk c => bech32Polymod chk ^^^ (c.toNat &&& 31))
          (bech32Polymod (hrp.foldl (fun chk c => bech32Polymod chk ^^^ (c.toNat >>> 5)) 1))))) ^^^ 1)
      % 1073741824) (Nat.mod_lt _ (by omega))
  refine ⟨s, ?_, hslen, hsb⟩
  unfold bechChecksum
  have hcond : (hrp.any fun c => decide (c.toNat < 33 ∨ 126 < c.toNat)) ≠ true := by
    rw [hhr]
    simp
  rw [if_neg hcond]
  dsimp only
  rw [hs, exceptSeq_ok]
  rfl

theorem bech32_decode_encode (hrp : List Char) (ws : List Nat)
    (hws : ∀ w ∈ ws, w < 32)
    (hhrNe : hrp ≠ [])
    (hhrGood : hrp.any (fun c => decide (c.toNat < 33 ∨ 126 < c.toNat)) = false)
    (hhrLower : ∀ c ∈ hrp, lowerChar c = c)
    (hlim : hrp.length + 7 + ws.length ≤ 90) :
    ∃ enc, bech32Encode hrp ws 90 = .ok enc ∧ bech32Decode enc 90 = .ok (hrp, ws) := by
  obtain ⟨sw, hsum, hswlen, hswb⟩ := bechChecksum_ok hrp ws hhrGood
  have hlowered : hrp.map lowerChar = hrp := mapSelf lowerChar hrp hhrLower
  have henc : bech32Encode hrp ws 90 =
      .ok (hrp ++ ['1'] ++ ws.map bechCharOf ++ sw.map bechCharOf) := by
    unfold bech32Encode
    rw [if_neg (by omega), hlowered]
    dsimp only
    rw [hsum, exceptSeq_ok, bechAlphEncode_ok ws hws, exceptSeq_ok]
    rfl
  refine ⟨_, henc, ?_⟩
  have hdata : ∀ c ∈ ws.map bechCharOf ++ sw.map bechCharOf,
      lowerChar c = c ∧ c ≠ '1' ∧ ∃ w, w < 32 ∧ c = bechCharOf w := by
    intro c hc
    rcases List.mem_append.mp hc with hc | hc <;>
      (obtain ⟨w, hw, rfl⟩ := List.mem_map.mp hc)
    · exact ⟨lowerChar_bechCharOf w (hws w hw), bechCharOf_ne_one w (hws w hw),
        w, hws w hw, rfl⟩
    · exact ⟨lowerChar_bechCharOf w (hswb w hw), bechCharOf_ne_one w (hswb w hw),
        w, hswb w hw, rfl⟩
  have hencEq : hrp ++ ['1'] ++ ws.map bechCharOf ++ sw.map bechCharOf =
      hrp ++ '1' :: (ws.map bechCharOf ++ sw.map bechCharOf) := by
    simp
  rw [hencEq]
  have hlen : (hrp ++ '1' :: (ws.map bechCharOf ++ sw.map bechCharOf)).length =
      hrp.length + 1 + ws.length + 6 := by
    simp [hswlen]
    omega
  have hhrpos : 0 < hrp.length := List.length_pos.mpr hhrNe
  have hlowerAll : (hrp ++ '1' :: (ws.map bechCharOf ++ sw.map bechCharOf)).map lowerChar =
      hrp ++ '1' :: (ws.map bechCharOf ++ sw.map bechCharOf) := by
    apply mapSelf
    intro c hc
    rcases List.mem_append.mp hc with hc | hc
    · exact hhrLower c hc
    · rcases List.mem_cons.mp hc with hc | hc
      · subst hc
        rfl
      · exact (hdata c hc).1
  unfold bech32Decode
  dsimp only
  rw [hlowerAll]
  rw [if_neg (by rw [hlen]; omega)]
  rw [if_neg (by intro hcon; exact hcon.1 rfl)]
  have hnomem : '1' ∉ ws.map bechCharOf ++ sw.map bechCharOf := by
    intro hm
    exact (hdata '1' hm).2.1 rfl
  have htk : (hrp ++ '1' :: (ws.map bechCharOf ++ sw.map bechCharOf)).take hrp.length =
      hrp := List.take_left hrp _
  have hdr : (hrp ++ '1' :: (ws.map bechCharOf ++ sw.map bechCharOf)).drop
      (hrp.length + 1) = ws.map bechCharOf ++ sw.map bechCharOf := by
    rw [List.append_cons hrp '1']
    apply List.drop_left'
    simp
  rw [lastIndexOfChar_append '1' _ hnomem hrp]
  split
  · rename_i harm
    simp at harm
  · rename_i harm
    injection harm with harm
    omega
  rename_i sepIndex harm
  injection harm with harm
  subst harm
  rw [htk, hdr]
  have hplen : (ws.map bechCharOf ++ sw.map bechCharOf).length = ws.length + 6 := by
    simp [hswlen]
  rw [if_neg (by omega)]
  rw [List.mapM_append, mapM_wordOf_map ws hws, mapM_wordOf_map sw hswb]
  simp only [exceptSeq_ok, exceptSeq_pure]
  have htk2 : (ws ++ sw).take ((ws ++ sw).length - 6) = ws := by
    have hl2 : (ws ++ sw).length - 6 = ws.length := by
      simp [hswlen]
    rw [hl2]
    exact List.take_left ws sw
  rw [htk2, hsum]
  simp only [exceptSeq_ok, exceptSeq_pure]
  rw [if_pos (by
    simp only [List.isSuffixOf_iff_suffix]
    exact List.suffix_append _ _)]
  rfl

/-! ### C6 — encode/decode round-trips. -/
/-- C6: for every valid 32-byte value, hex decode inverts hex encode, and
nsecToHex inverts hexToNsec (the checksummed encoding round-trips through
toWords, bech32 encode, bech32 decode and fromWords). -/
theorem claim6_roundtrips (bs : List Nat)
    (hb : ∀ b ∈ bs, b < 256) (hlen : bs.length = 32) :
    hexToBytes (bytesToHex bs) = .ok bs ∧
    (nostrHexToNsec (bytesToHex bs)).bind nostrNsecToHex = .ok (bytesToHex bs) := by
  have hhex := hexToBytes_bytesToHex bs hb
  refine ⟨hhex, ?_⟩
  obtain ⟨W, hW, hWlen, hWbnd, hfrom⟩ := wordsRoundtrip bs hb hlen
  obtain ⟨enc, henc, hdec⟩ := bech32_decode_encode ('n' :: 's' :: 'e' :: 'c' :: []) W hWbnd
    (by simp) (by decide) (by decide) (by rw [hWlen]; norm_num)
  have h1 : nostrHexToNsec (bytesToHex bs) = .ok (String.mk enc) := by
    unfold nostrHexToNsec
    have hinner : (do
        let bytes ← hexToBytes (bytesToHex bs)
        if bytes.length ≠ 32 then .error "Invalid private key length"
        else do
          let ws ← toWords bytes
          let chars ← bech32Encode ('n' :: 's' :: 'e' :: 'c' :: []) ws 90
          pure (String.mk chars) : Except String String) = .ok (String.mk enc) := by
      rw [hhex, exceptSeq_ok, if_neg (by simp [hlen]), hW, exceptSeq_ok, henc,
        exceptSeq_ok]
      rfl
    rw [hinner]
  have h2 : nostrNsecToHex (String.mk enc) = .ok (bytesToHex bs) := by
    unfold nostrNsecToHex
    have hinner : (do
        let pr ← bech32Decode (String.mk enc).data 90
        if pr.1 ≠ 'n' :: 's' :: 'e' :: 'c' :: [] then .error "Invalid nsec prefix"
        else do
          let bytes ← fromWords pr.2
          if bytes.length ≠ 32 then .error "Invalid nsec length"
          else pure (bytesToHex bytes) : Except String String) = .ok (bytesToHex bs) := by
      rw [show (String.mk enc).data = enc from rfl, hdec, exceptSeq_ok]
      dsimp only
      rw [if_neg (by simp), hfrom, exceptSeq_ok, if_neg (by simp [hlen])]
      rfl
    rw [hinner]
  rw [h1, exceptBind_ok, h2]

/-- C6 (witness): the round-trip theorem evaluated at a concrete 32-byte
value. -/
theorem claim6_witness :
    bytes32Sample.length = 32 ∧
    hexToBytes (bytesToHex bytes32Sample) = .ok bytes32Sample ∧
    (nostrHexToNsec (bytesToHex bytes32Sample)).bind nostrNsecToHex =
      .ok (bytesToHex bytes32Sample) := by
  refine ⟨by decide, ?_, ?_⟩
  · exact (claim6_roundtrips bytes32Sample (by decide) (by decide)).1
  · exact (claim6_roundtrips bytes32Sample (by decide) (by decide)).2

/-! ### C4 — key-construction errors are collapsed, not distinct. The
NostrKeyPair constructor and fromNsec each wrap their whole body in a
try/catch whose handler throws one fixed message, so a wrong length, a bad
hex encoding and a wrong bech32 prefix are indistinguishable to the
caller. -/
/-- C4 (counterexample): a wrong-length private key (31 bytes of valid hex),
a non-hex private key, and a wrong-prefix checksummed string (a valid npub
fed to fromNsec) do not surface as three distinct errors: the first two both
yield "Invalid private key hex" and the third yields the generic
"Invalid nsec format", not an InvalidPrefix error. -/
theorem claim4_counterexample :
    mkNostrKeyPair toySchnorr (.inl (String.mk (List.replicate 62 '0'))) =
      .error "Invalid private key hex" ∧
    mkNostrKeyPair toySchnorr (.inl "zz") = .error "Invalid private key hex" ∧
    keyPairFromNsec toySchnorr
      "npub1qqqqqqqqqqqqqqqqqqqqqqqqqqqqqqqqqqqqqqqqqqqqqqqqqqqqzqujme" =
      .error "Invalid nsec format" := by
  exact ⟨by decide, by decide, by decide⟩

/-- C4 (amended): every failure of the keypair constructor surfaces as the
single message "Invalid private key hex", and every failure of fromNsec as
the single message "Invalid nsec format": the catch-all handlers collapse
the distinct causes. -/
theorem claim4_amended_collapsed_errors :
    (∀ (S : Schnorr) (inp : String ⊕ List Nat) (e : String),
      mkNostrKeyPair S inp = .error e → e = "Invalid private key hex") ∧
    (∀ (S : Schnorr) (s : String) (e : String),
      keyPairFromNsec S s = .error e → e = "Invalid nsec format") := by
  constructor
  · intro S inp e h
    unfold mkNostrKeyPair at h
    split at h
    · simp at h
    · injection h with h
      exact h.symm
  · intro S s e h
    unfold keyPairFromNsec at h
    split at h
    · simp at h
    · injection h with h
      exact h.symm

/-- C4 (witness): the amended theorem evaluated on a concrete failing
construction. -/
theorem claim4_amended_witness :
    mkNostrKeyPair toySchnorr (.inl "zz") = .error "Invalid private key hex" ∧
    "Invalid private key hex" = "Invalid private key hex" :=
  ⟨by decide, claim4_amended_collapsed_errors.1 toySchnorr (.inl "zz")
    "Invalid private key hex" (by decide)⟩

/-! ### C5 — the public key constructor does not validate length. -/
/-- C5 (counterexample): constructing a public key from 31 raw bytes, or via
fromHex from a 62-character hex string, succeeds; no InvalidKeyLength error
is raised for a non-32-byte input. -/
theorem claim5_counterexample :
    (mkNostrPublicKey (.inr (List.replicate 31 0))).isOk = true ∧
    (publicKeyFromHex (String.mk (List.replicate 62 '0'))).isOk = true := by
  exact ⟨by decide, by decide⟩

/-- C5 (amended): the NostrPublicKey constructor performs no 32-byte length
check: every 31-byte input (raw bytes) is accepted and stored verbatim. -/
theorem claim5_amended_no_length_check (bs : List Nat)
    (hb : ∀ b ∈ bs, b < 256) (hlen : bs.length = 31) :
    ∃ pk, mkNostrPublicKey (.inr bs) = .ok pk ∧ pk.bytes = bs ∧
      pk.hex = bytesToHex bs := by
  obtain ⟨W, hW, hWbnd, hWlen, hWval⟩ := toWords_spec bs hb
  rw [hlen] at hWlen
  norm_num at hWlen
  obtain ⟨enc, henc, _⟩ := bech32_decode_encode ('n' :: 'p' :: 'u' :: 'b' :: []) W hWbnd
    (by simp) (by decide) (by decide) (by simp; omega)
  refine ⟨⟨bytesToHex bs, String.mk enc, bs⟩, ?_, rfl, rfl⟩
  unfold mkNostrPublicKey
  show (pure bs >>= fun bytes => _) = _
  rw [exceptSeq_pure, hW, exceptSeq_ok, henc, exceptSeq_ok]
  rfl

/-- C5 (witness): the amended theorem evaluated at 31 zero bytes. -/
theorem claim5_amended_witness :
    ∃ pk, mkNostrPublicKey (.inr (List.replicate 31 0)) = .ok pk ∧
      pk.bytes = List.replicate 31 0 ∧ pk.hex = bytesToHex (List.replicate 31 0) :=
  claim5_amended_no_length_check (List.replicate 31 0) (by decide) (by decide)

/-- C8 (counterexample): after the transport closed event for relay.a, the
peer is still in the connection map and the subscription registry is
untouched; only the closed callback fired. The claimed removal and pruning
do not happen. -/
theorem claim8_counterexample :
    ((handleWsClosed poolSample "wss://relay.a").1.relays.map Prod.fst).contains
      "wss://relay.a" = true ∧
    (handleWsClosed poolSample "wss://relay.a").1.subscriptions =
      [("sub1", ["wss://relay.a"])] ∧
    (handleWsClosed poolSample "wss://relay.a").2 =
      [PoolEffect.cbClosed "wss://relay.a"] :=
  ⟨by decide, rfl, rfl⟩

/-- C8 (amended): when the transport-level closed event fires for a peer,
the pool fires the closed callback and nothing else: the connection map and
the subscription registry are left unchanged (removal and pruning happen
only in the explicit close operation). -/
theorem claim8_amended_closed_event_only_callback (pool : PoolState) (url : String) :
    handleWsClosed pool url = (pool, [PoolEffect.cbClosed url]) := rfl

/-! ### C9 — publish sends only to targeted open peers. -/
/-- C9: publish emits exactly one send of the serialized EVENT frame per
targeted open relay, a warning (and no send) for every targeted relay that
is not open, and never fires a callback. The model function is total, so no
exception is raised. -/
theorem claim9_publish_only_open_targets (pool : PoolState) (e : NostrEvent)
    (relayUrls : List String) :
    (∀ url m, PoolEffect.send url m ∈ publishEffects pool e relayUrls ↔
      ((url, WsReadyState.OPEN) ∈ publishTargets pool relayUrls ∧
        m = eventWireMessage e)) ∧
    (∀ p ∈ publishTargets pool relayUrls, p.2 ≠ WsReadyState.OPEN →
      PoolEffect.warn ("Cannot publish to " ++ p.1 ++ ": WebSocket is not open") ∈
        publishEffects pool e relayUrls) ∧
    (∀ eff ∈ publishEffects pool e relayUrls, eff.isCallback = false) := by
  refine ⟨?_, ?_, ?_⟩
  · intro url m
    constructor
    · intro hmem
      obtain ⟨p, hp, hin⟩ := List.mem_flatMap.mp hmem
      by_cases hopen : p.2 = WsReadyState.OPEN
      · rw [if_pos hopen] at hin
        simp only [List.mem_cons, List.not_mem_nil, or_false] at hin
        obtain ⟨h1, h2⟩ := PoolEffect.send.inj hin
        refine ⟨?_, h2⟩
        have hpeq : (url, WsReadyState.OPEN) = p := by
          rcases p with ⟨pu, ps⟩
          simp only at h1 hopen
          rw [h1, hopen]
        rw [hpeq]
        exact hp
      · rw [if_neg hopen] at hin
        simp at hin
    · rintro ⟨hmem, rfl⟩
      exact List.mem_flatMap.mpr ⟨(url, WsReadyState.OPEN), hmem, by simp⟩
  · intro p hp hne
    exact List.mem_flatMap.mpr ⟨p, hp, by simp [if_neg hne]⟩
  · intro eff heff
    obtain ⟨p, _, hin⟩ := List.mem_flatMap.mp heff
    by_cases hopen : p.2 = WsReadyState.OPEN
    · rw [if_pos hopen] at hin
      simp only [List.mem_cons, List.not_mem_nil, or_false] at hin
      rw [hin]
      rfl
    · rw [if_neg hopen] at hin
      simp only [List.mem_cons, List.not_mem_nil, or_false] at hin
      rw [hin]
      rfl

/-- C9 (witness): publishing to the closed relay.b alone produces exactly
one warning — no send, no callback — as the theorem instantiated at this
pool states. -/
theorem claim9_witness :
    publishEffects poolSample2 eNoId ["wss://relay.b"] =
      [PoolEffect.warn "Cannot publish to wss://relay.b: WebSocket is not open"] ∧
    PoolEffect.warn "Cannot publish to wss://relay.b: WebSocket is not open" ∈
      publishEffects poolSample2 eNoId ["wss://relay.b"] :=
  ⟨by decide,
   (claim9_publish_only_open_targets poolSample2 eNoId ["wss://relay.b"]).2.1
     ("wss://relay.b", WsReadyState.CLOSED) (by decide) (by decide)⟩

end Lynkdlst
